import Mathlib

/-!
Shallow embedding of `VKShaderInterface` from
`source/blender/gpu/vulkan/vk_shader_interface.cc` (Blender, Vulkan GPU
backend), together with proofs about its binding-table construction.

The construction pipeline of `VKShaderInterface::init` is embedded
function-by-function: the classification pass (lines 26-44), the three
population loops (lines 54-84), the sort (line 86) and the second pass
assigning descriptor-set locations (lines 88-94), plus the query interface
`shader_input_get` (lines 134-154) and `descriptor_set_location_update`
(lines 104-109).  Helpers that live in the base `ShaderInterface` class
(outside this excerpt) - `copy_input_name`, `sort_inputs`, `ubo_get`,
`texture_get`, `ssbo_get` - are modelled from the spec and marked as such.
-/

namespace VK

/-- `shader::ShaderCreateInfo::Resource::BindType`. -/
inductive BindType where
  | UniformBuffer
  | StorageBuffer
  | Sampler
  | Image
deriving DecidableEq, Repr

/-- `ShaderCreateInfo::Resource`: a bind type, an application-level slot and
a resource name. -/
structure Resource where
  bind_type : BindType
  slot : Int
  name : String
deriving DecidableEq, Repr

/-- `ShaderInput` record of the input table: the name (a view into the name
buffer), its byte offset in the name buffer, the location and the binding. -/
structure ShaderInput where
  name : String
  name_offset : Nat
  location : Int
  binding : Int
deriving DecidableEq, Repr

/-- State of the classification pass of `init` (lines 16-44): the per-type
counters and `image_offset_` before the final increment of line 44. -/
structure ClassifyState where
  ubo_len : Nat
  uniform_len : Nat
  ssbo_len : Nat
  image_offset_raw : Int
deriving DecidableEq, Repr

/-- One iteration of the classification loop (lines 26-42): images and
samplers bump `uniform_len_`, samplers also raise `image_offset_` to their
slot (`max_ii`), uniform buffers bump `ubo_len_`, storage buffers bump
`ssbo_len_`. -/
def classifyStep (s : ClassifyState) (r : Resource) : ClassifyState :=
  match r.bind_type with
  | .Image => { s with uniform_len := s.uniform_len + 1 }
  | .Sampler =>
      { s with uniform_len := s.uniform_len + 1,
               image_offset_raw := max s.image_offset_raw r.slot }
  | .UniformBuffer => { s with ubo_len := s.ubo_len + 1 }
  | .StorageBuffer => { s with ssbo_len := s.ssbo_len + 1 }

/-- The classification pass over the whole resource list, starting from the
initial state of lines 16-20 (`image_offset_ = -1`, counters zero). -/
def classify (resources : List Resource) : ClassifyState :=
  resources.foldl classifyStep ⟨0, 0, 0, -1⟩

/-- `image_offset_` after the increment on line 44. -/
def image_offset_of (resources : List Resource) : Int :=
  (classify resources).image_offset_raw + 1

/-- Modelled from the spec: `copy_input_name` (base `ShaderInterface`, not
part of the excerpt) - the record keeps its name, the current name-buffer
write offset is recorded in the record, and the population loops advance the
offset by the byte length of the name.  The location and binding fields are
both set to the same value, as in `input->location = input->binding = ...`
(lines 58, 67, 72, 81). -/
def mkInput (r : Resource) (loc : Int) (off : Nat) : ShaderInput :=
  { name := r.name, name_offset := off, location := loc, binding := loc }

/-- One population loop over the resource list: `sel r = some loc` when the
loop body handles `r` (emitting a record with location and binding `loc` and
advancing the name-buffer offset), `none` when the loop skips `r`. -/
def populateLoop (sel : Resource → Option Int) :
    List Resource → Nat → List ShaderInput × Nat
  | [], off => ([], off)
  | r :: rs, off =>
    match sel r with
    | some loc =>
        let rest := populateLoop sel rs (off + r.name.length)
        (mkInput r loc off :: rest.1, rest.2)
    | none => populateLoop sel rs off

/-- Selection of the first population loop (lines 55-61): uniform buffers,
location = slot. -/
def selUbo (r : Resource) : Option Int :=
  match r.bind_type with
  | .UniformBuffer => some r.slot
  | _ => none

/-- Selection of the second population loop (lines 64-75): samplers get
location = slot, images get location = slot + image_offset. -/
def selTex (image_offset : Int) (r : Resource) : Option Int :=
  match r.bind_type with
  | .Sampler => some r.slot
  | .Image => some (r.slot + image_offset)
  | _ => none

/-- Selection of the third population loop (lines 78-84): storage buffers,
location = slot. -/
def selSsbo (r : Resource) : Option Int :=
  match r.bind_type with
  | .StorageBuffer => some r.slot
  | _ => none

/-- Byte-wise lexicographic comparison of names (the consistent total order
used to sort the input table). -/
def charsLe : List Char → List Char → Bool
  | [], _ => true
  | _ :: _, [] => false
  | a :: as, b :: bs =>
      if a.toNat < b.toNat then true
      else if b.toNat < a.toNat then false
      else charsLe as bs

/-- Name order used for sorting the input table. -/
def nameLe (a b : ShaderInput) : Prop := charsLe a.name.data b.name.data = true

instance : DecidableRel nameLe := fun a b =>
  inferInstanceAs (Decidable (charsLe a.name.data b.name.data = true))

/-- Modelled from the spec: `sort_inputs` (base `ShaderInterface`, not part
of the excerpt) - sorts the input table by name within each bind-group
sub-range (uniform blocks, then samplers/images, then storage buffers),
keeping the fixed group order that the sub-range lookups of the query
interface rely on; the stable insertion sort breaks ties between equal names
by original position. -/
def sort_inputs (ubo_len uniform_len : Nat) (inputs : List ShaderInput) :
    List ShaderInput :=
  List.insertionSort nameLe (inputs.take ubo_len)
    ++ List.insertionSort nameLe ((inputs.drop ubo_len).take uniform_len)
    ++ List.insertionSort nameLe ((inputs.drop ubo_len).drop uniform_len)

/-- The `VKShaderInterface` state produced by `init`.  The descriptor-set
location array is allocated with `input_tot_len` cells (line 89); a cell is
`none` until the second pass writes it. -/
structure VKShaderInterface where
  ubo_len : Nat
  uniform_len : Nat
  ssbo_len : Nat
  image_offset : Int
  inputs : List ShaderInput
  name_buffer_used : Nat
  descriptor_set_locations : List (Option Nat)
deriving DecidableEq, Repr

/-- Modelled from the spec: sub-range lookup by binding (base
`ShaderInterface` `input_lookup`, not part of the excerpt) - searches the
`len` records starting at table position `start` for one whose binding
equals `binding`, and returns its position in the whole table (the query
interface returns the record position, which is the key into the
descriptor-set location map). -/
def input_lookup (inputs : List ShaderInput) (start len : Nat)
    (binding : Int) : Option Nat :=
  match ((inputs.drop start).take len).findIdx?
      (fun inp => inp.binding == binding) with
  | some i => some (start + i)
  | none => none

/-- Modelled from the spec: `ubo_get` - uniform buffers search within their
contiguous sub-range of the table. -/
def ubo_get (s : VKShaderInterface) (binding : Int) : Option Nat :=
  input_lookup s.inputs 0 s.ubo_len binding

/-- Modelled from the spec: `texture_get` - samplers and images share the
uniform sub-range of the table. -/
def texture_get (s : VKShaderInterface) (binding : Int) : Option Nat :=
  input_lookup s.inputs s.ubo_len s.uniform_len binding

/-- Modelled from the spec: `ssbo_get` - storage buffers search within their
contiguous sub-range of the table. -/
def ssbo_get (s : VKShaderInterface) (binding : Int) : Option Nat :=
  input_lookup s.inputs (s.ubo_len + s.uniform_len) s.ssbo_len binding

/-- `VKShaderInterface::shader_input_get(bind_type, binding)`
(lines 140-154): type-directed dispatch; images search the uniform range by
`binding + image_offset_`, samplers by the raw binding. -/
def shader_input_get (s : VKShaderInterface) (bind_type : BindType)
    (binding : Int) : Option Nat :=
  match bind_type with
  | .Image => texture_get s (binding + s.image_offset)
  | .Sampler => texture_get s binding
  | .StorageBuffer => ssbo_get s binding
  | .UniformBuffer => ubo_get s binding

/-- `VKShaderInterface::shader_input_get(resource)` (lines 134-138). -/
def shader_input_getRes (s : VKShaderInterface) (r : Resource) : Option Nat :=
  shader_input_get s r.bind_type r.slot

/-- `descriptor_set_location_update` (lines 104-109): store `location` at
the record's table position (the `shader_input_index` pointer subtraction
becomes the explicit index returned by the lookup). -/
def descriptor_set_location_update (s : VKShaderInterface) (index : Nat)
    (location : Nat) : VKShaderInterface :=
  { s with descriptor_set_locations :=
      s.descriptor_set_locations.set index (some location) }

/-- The second pass of `init` (lines 90-94): walk the original resource
list, look each resource up in the sorted table, and store the running
counter at the found position; the counter increments once per resource.  A
failed lookup has no defined behaviour in the C++ (the returned pointer is
used without a null check); it is modelled as leaving the map unchanged, and
the safety claims show it cannot occur. -/
def assignLocations (s : VKShaderInterface) (counter : Nat) :
    List Resource → VKShaderInterface
  | [] => s
  | r :: rs =>
    match shader_input_getRes s r with
    | some index =>
        assignLocations (descriptor_set_location_update s index counter)
          (counter + 1) rs
    | none => assignLocations s (counter + 1) rs

/-- The interface state reached by `init` just before the second pass (line
90): counters classified, `image_offset_` bumped, table populated in fixed
group order with the name-buffer offset threaded through the three loops,
table sorted, and the descriptor-set location array allocated with
`input_tot_len` unwritten cells (line 89). -/
def preOf (pass_resources batch_resources : List Resource) :
    VKShaderInterface :=
  let all_resources := pass_resources ++ batch_resources
  let c := classify all_resources
  let image_offset := c.image_offset_raw + 1
  let pu := populateLoop selUbo all_resources 0
  let pt := populateLoop (selTex image_offset) all_resources pu.2
  let ps := populateLoop selSsbo all_resources pt.2
  let input_tot_len := c.ubo_len + c.uniform_len + c.ssbo_len
  { ubo_len := c.ubo_len
    uniform_len := c.uniform_len
    ssbo_len := c.ssbo_len
    image_offset := image_offset
    inputs := sort_inputs c.ubo_len c.uniform_len (pu.1 ++ pt.1 ++ ps.1)
    name_buffer_used := ps.2
    descriptor_set_locations := List.replicate input_tot_len none }

/-- `VKShaderInterface::init` (lines 12-95): concatenate the pass and batch
resource lists, classify, bump `image_offset_`, populate the table in fixed
group order, sort, then assign descriptor-set locations by a counter over
the original list (lines 90-94). -/
def init (pass_resources batch_resources : List Resource) :
    VKShaderInterface :=
  assignLocations (preOf pass_resources batch_resources) 0
    (pass_resources ++ batch_resources)

/-- The combined pre-sort population of the table (the result of the three
loops of lines 54-84, before line 86 sorts it). -/
def populatedOf (pass_resources batch_resources : List Resource) :
    List ShaderInput :=
  let all_resources := pass_resources ++ batch_resources
  let image_offset := image_offset_of all_resources
  let pu := populateLoop selUbo all_resources 0
  let pt := populateLoop (selTex image_offset) all_resources pu.2
  let ps := populateLoop selSsbo all_resources pt.2
  pu.1 ++ pt.1 ++ ps.1

/-- Group membership tests for the three population groups. -/
def isUbo (r : Resource) : Bool :=
  match r.bind_type with
  | .UniformBuffer => true
  | _ => false

/-- A sampler or an image: the second population group. -/
def isTex (r : Resource) : Bool :=
  match r.bind_type with
  | .Sampler => true
  | .Image => true
  | _ => false

/-- A sampler. -/
def isSampler (r : Resource) : Bool :=
  match r.bind_type with
  | .Sampler => true
  | _ => false

/-- A storage buffer: the third population group. -/
def isSsbo (r : Resource) : Bool :=
  match r.bind_type with
  | .StorageBuffer => true
  | _ => false

/-- Spec-side definition: the location a resource receives - its slot,
shifted by `image_offset` for images. -/
def locOf (image_offset : Int) (r : Resource) : Int :=
  match r.bind_type with
  | .Image => r.slot + image_offset
  | _ => r.slot

/-- Spec-side definition of the population order: all uniform buffers in
descriptor-list order, then all samplers and images interleaved in
descriptor-list order, then all storage buffers in descriptor-list order. -/
def specGroupOrder (l : List Resource) : List Resource :=
  l.filter isUbo ++ l.filter isTex ++ l.filter isSsbo

/-- Spec-side definition: populate records for the given resources in the
given order, threading the name-buffer write offset. -/
def populateInOrder (image_offset : Int) :
    List Resource → Nat → List ShaderInput
  | [], _ => []
  | r :: rs, off =>
      mkInput r (locOf image_offset r) off
        :: populateInOrder image_offset rs (off + r.name.length)

/-- Total byte length of the names of a resource list. -/
def nameBytes (l : List Resource) : Nat :=
  (l.map fun r => r.name.length).sum

/-- The uniform-buffer records of the populated (pre-sort) table. -/
def uboRecsOf (pass_resources batch_resources : List Resource) :
    List ShaderInput :=
  populateInOrder (image_offset_of (pass_resources ++ batch_resources))
    ((pass_resources ++ batch_resources).filter isUbo) 0

/-- The sampler and image records of the populated (pre-sort) table. -/
def texRecsOf (pass_resources batch_resources : List Resource) :
    List ShaderInput :=
  populateInOrder (image_offset_of (pass_resources ++ batch_resources))
    ((pass_resources ++ batch_resources).filter isTex)
    (nameBytes ((pass_resources ++ batch_resources).filter isUbo))

/-- The storage-buffer records of the populated (pre-sort) table. -/
def ssboRecsOf (pass_resources batch_resources : List Resource) :
    List ShaderInput :=
  populateInOrder (image_offset_of (pass_resources ++ batch_resources))
    ((pass_resources ++ batch_resources).filter isSsbo)
    (nameBytes ((pass_resources ++ batch_resources).filter isUbo)
      + nameBytes ((pass_resources ++ batch_resources).filter isTex))

/-- The sorted uniform-buffer sub-range of the table. -/
def sortedUboOf (pass_resources batch_resources : List Resource) :
    List ShaderInput :=
  List.insertionSort nameLe (uboRecsOf pass_resources batch_resources)

/-- The sorted sampler/image sub-range of the table. -/
def sortedTexOf (pass_resources batch_resources : List Resource) :
    List ShaderInput :=
  List.insertionSort nameLe (texRecsOf pass_resources batch_resources)

/-- The sorted storage-buffer sub-range of the table. -/
def sortedSsboOf (pass_resources batch_resources : List Resource) :
    List ShaderInput :=
  List.insertionSort nameLe (ssboRecsOf pass_resources batch_resources)

/-- The population group a resource belongs to: 0 for uniform buffers, 1
for samplers and images, 2 for storage buffers. -/
def groupOf (r : Resource) : Nat :=
  match r.bind_type with
  | .UniformBuffer => 0
  | .Sampler => 1
  | .Image => 1
  | .StorageBuffer => 2

/-- The worked scenario of the spec: a uniform buffer, a sampler, an image
and a storage buffer, all on slot 0. -/
def demoList : List Resource :=
  [⟨.UniformBuffer, 0, "Globals"⟩, ⟨.Sampler, 0, "tex"⟩,
    ⟨.Image, 0, "img_out"⟩, ⟨.StorageBuffer, 0, "data"⟩]

/-- Precondition from the data model of the spec: slots are non-negative. -/
def SlotsNonneg (l : List Resource) : Prop := ∀ r ∈ l, 0 ≤ r.slot

/-- Precondition from the spec: no two resources share both a bind type and
a slot (duplicate pairs are undefined behaviour, validated upstream). -/
def UniqueTypeSlot (l : List Resource) : Prop :=
  l.Pairwise (fun a b => a.bind_type = b.bind_type → a.slot ≠ b.slot)

instance : DecidablePred SlotsNonneg := fun l =>
  inferInstanceAs (Decidable (∀ r ∈ l, 0 ≤ r.slot))

instance : DecidablePred UniqueTypeSlot := fun l =>
  List.instDecidablePairwise l

/-! Basic lemmas: the second pass only writes the descriptor-set location
array, every other field of the interface is unchanged. -/

theorem update_shader_input_get (s : VKShaderInterface) (i v : Nat)
    (bt : BindType) (b : Int) :
    shader_input_get (descriptor_set_location_update s i v) bt b
      = shader_input_get s bt b := by
  cases bt <;> rfl

theorem update_shader_input_getRes (s : VKShaderInterface) (i v : Nat)
    (r : Resource) :
    shader_input_getRes (descriptor_set_location_update s i v) r
      = shader_input_getRes s r := by
  cases r with
  | mk bt slot name => cases bt <;> rfl

theorem assignLocations_inputs (rs : List Resource) :
    ∀ (s : VKShaderInterface) (c : Nat),
      (assignLocations s c rs).inputs = s.inputs := by
  induction rs with
  | nil => intro s c; rfl
  | cons r rs ih =>
      intro s c
      simp only [assignLocations]
      cases h : shader_input_getRes s r with
      | some i => rw [ih]; rfl
      | none => exact ih s (c + 1)

theorem assignLocations_ubo_len (rs : List Resource) :
    ∀ (s : VKShaderInterface) (c : Nat),
      (assignLocations s c rs).ubo_len = s.ubo_len := by
  induction rs with
  | nil => intro s c; rfl
  | cons r rs ih =>
      intro s c
      simp only [assignLocations]
      cases h : shader_input_getRes s r with
      | some i => rw [ih]; rfl
      | none => exact ih s (c + 1)

theorem assignLocations_uniform_len (rs : List Resource) :
    ∀ (s : VKShaderInterface) (c : Nat),
      (assignLocations s c rs).uniform_len = s.uniform_len := by
  induction rs with
  | nil => intro s c; rfl
  | cons r rs ih =>
      intro s c
      simp only [assignLocations]
      cases h : shader_input_getRes s r with
      | some i => rw [ih]; rfl
      | none => exact ih s (c + 1)

theorem assignLocations_ssbo_len (rs : List Resource) :
    ∀ (s : VKShaderInterface) (c : Nat),
      (assignLocations s c rs).ssbo_len = s.ssbo_len := by
  induction rs with
  | nil => intro s c; rfl
  | cons r rs ih =>
      intro s c
      simp only [assignLocations]
      cases h : shader_input_getRes s r with
      | some i => rw [ih]; rfl
      | none => exact ih s (c + 1)

theorem assignLocations_image_offset (rs : List Resource) :
    ∀ (s : VKShaderInterface) (c : Nat),
      (assignLocations s c rs).image_offset = s.image_offset := by
  induction rs with
  | nil => intro s c; rfl
  | cons r rs ih =>
      intro s c
      simp only [assignLocations]
      cases h : shader_input_getRes s r with
      | some i => rw [ih]; rfl
      | none => exact ih s (c + 1)

theorem assignLocations_name_buffer_used (rs : List Resource) :
    ∀ (s : VKShaderInterface) (c : Nat),
      (assignLocations s c rs).name_buffer_used = s.name_buffer_used := by
  induction rs with
  | nil => intro s c; rfl
  | cons r rs ih =>
      intro s c
      simp only [assignLocations]
      cases h : shader_input_getRes s r with
      | some i => rw [ih]; rfl
      | none => exact ih s (c + 1)

theorem assignLocations_dsl_length (rs : List Resource) :
    ∀ (s : VKShaderInterface) (c : Nat),
      (assignLocations s c rs).descriptor_set_locations.length
        = s.descriptor_set_locations.length := by
  induction rs with
  | nil => intro s c; rfl
  | cons r rs ih =>
      intro s c
      simp only [assignLocations]
      cases h : shader_input_getRes s r with
      | some i =>
          rw [ih]
          simp [descriptor_set_location_update]
      | none => exact ih s (c + 1)

theorem assignLocations_shader_input_getRes (rs : List Resource) :
    ∀ (s : VKShaderInterface) (c : Nat) (r : Resource),
      shader_input_getRes (assignLocations s c rs) r
        = shader_input_getRes s r := by
  induction rs with
  | nil => intro s c r; rfl
  | cons r0 rs ih =>
      intro s c r
      simp only [assignLocations]
      cases h : shader_input_getRes s r0 with
      | some i => rw [ih, update_shader_input_getRes]
      | none => exact ih s (c + 1) r

/-! Lemmas about the population loops. -/

theorem populateLoop_length (sel : Resource → Option Int) :
    ∀ (l : List Resource) (off : Nat),
      (populateLoop sel l off).1.length
        = (l.filter fun r => (sel r).isSome).length := by
  intro l
  induction l with
  | nil => intro off; rfl
  | cons r rs ih =>
      intro off
      simp only [populateLoop]
      cases h : sel r with
      | some loc => simp [List.filter_cons, h, ih]
      | none => simp [List.filter_cons, h, ih]

theorem populateLoop_snd (sel : Resource → Option Int) :
    ∀ (l : List Resource) (off : Nat),
      (populateLoop sel l off).2
        = off + (((l.filter fun r => (sel r).isSome).map
            fun r => r.name.length).sum) := by
  intro l
  induction l with
  | nil => intro off; simp [populateLoop]
  | cons r rs ih =>
      intro off
      simp only [populateLoop]
      cases h : sel r with
      | some loc =>
          simp only [List.filter_cons, h, Option.isSome_some, if_pos,
            List.map_cons, List.sum_cons]
          rw [ih]
          omega
      | none => simp [List.filter_cons, h, ih]

theorem populateLoop_map_binding (sel : Resource → Option Int) :
    ∀ (l : List Resource) (off : Nat),
      (populateLoop sel l off).1.map ShaderInput.binding = l.filterMap sel := by
  intro l
  induction l with
  | nil => intro off; rfl
  | cons r rs ih =>
      intro off
      simp only [populateLoop]
      cases h : sel r with
      | some loc => simp [List.filterMap_cons, h, ih, mkInput]
      | none => simp [List.filterMap_cons, h, ih]

theorem populateLoop_loc_eq_binding (sel : Resource → Option Int) :
    ∀ (l : List Resource) (off : Nat) (rec : ShaderInput),
      rec ∈ (populateLoop sel l off).1 → rec.location = rec.binding := by
  intro l
  induction l with
  | nil => intro off rec h; simp [populateLoop] at h
  | cons r rs ih =>
      intro off rec h
      simp only [populateLoop] at h
      cases hs : sel r with
      | some loc =>
          rw [hs] at h
          simp only [List.mem_cons] at h
          rcases h with h | h
          · subst h; rfl
          · exact ih _ rec h
      | none =>
          rw [hs] at h
          exact ih _ rec h

theorem populateLoop_eq_inOrder (io : Int) (sel : Resource → Option Int)
    (grp : Resource → Bool)
    (h : ∀ r, sel r = if grp r then some (locOf io r) else none) :
    ∀ (l : List Resource) (off : Nat),
      (populateLoop sel l off).1 = populateInOrder io (l.filter grp) off := by
  intro l
  induction l with
  | nil => intro off; rfl
  | cons r rs ih =>
      intro off
      simp only [populateLoop, List.filter_cons]
      cases hg : grp r with
      | true =>
          have hs : sel r = some (locOf io r) := by rw [h r, hg]; rfl
          rw [hs]
          simp only [populateInOrder, ih]
      | false =>
          have hs : sel r = none := by rw [h r, hg]; rfl
          rw [hs]
          simp only [ih, if_neg (by simp : ¬(false = true))]

/-! The three loop selections, phrased through the group tests. -/

theorem selUbo_spec (io : Int) (r : Resource) :
    selUbo r = if isUbo r then some (locOf io r) else none := by
  cases r with
  | mk bt slot name => cases bt <;> rfl

theorem selTex_spec (io : Int) (r : Resource) :
    selTex io r = if isTex r then some (locOf io r) else none := by
  cases r with
  | mk bt slot name => cases bt <;> rfl

theorem selSsbo_spec (io : Int) (r : Resource) :
    selSsbo r = if isSsbo r then some (locOf io r) else none := by
  cases r with
  | mk bt slot name => cases bt <;> rfl

theorem selUbo_isSome (r : Resource) : (selUbo r).isSome = isUbo r := by
  cases r with
  | mk bt slot name => cases bt <;> rfl

theorem selTex_isSome (io : Int) (r : Resource) :
    (selTex io r).isSome = isTex r := by
  cases r with
  | mk bt slot name => cases bt <;> rfl

theorem selSsbo_isSome (r : Resource) : (selSsbo r).isSome = isSsbo r := by
  cases r with
  | mk bt slot name => cases bt <;> rfl

/-! Lemmas about the classification pass. -/

theorem classify_foldl_ubo (l : List Resource) :
    ∀ s : ClassifyState,
      (l.foldl classifyStep s).ubo_len = s.ubo_len + (l.filter isUbo).length := by
  induction l with
  | nil => intro s; simp
  | cons r rs ih =>
      intro s
      simp only [List.foldl_cons, List.filter_cons, ih]
      cases hr : r.bind_type <;>
        (simp [classifyStep, hr, isUbo]; try omega)

theorem classify_foldl_uniform (l : List Resource) :
    ∀ s : ClassifyState,
      (l.foldl classifyStep s).uniform_len
        = s.uniform_len + (l.filter isTex).length := by
  induction l with
  | nil => intro s; simp
  | cons r rs ih =>
      intro s
      simp only [List.foldl_cons, List.filter_cons, ih]
      cases hr : r.bind_type <;>
        (simp [classifyStep, hr, isTex]; try omega)

theorem classify_foldl_ssbo (l : List Resource) :
    ∀ s : ClassifyState,
      (l.foldl classifyStep s).ssbo_len
        = s.ssbo_len + (l.filter isSsbo).length := by
  induction l with
  | nil => intro s; simp
  | cons r rs ih =>
      intro s
      simp only [List.foldl_cons, List.filter_cons, ih]
      cases hr : r.bind_type <;>
        (simp [classifyStep, hr, isSsbo]; try omega)

theorem classify_foldl_raw_mono (l : List Resource) :
    ∀ s : ClassifyState,
      s.image_offset_raw ≤ (l.foldl classifyStep s).image_offset_raw := by
  induction l with
  | nil => intro s; simp
  | cons r rs ih =>
      intro s
      simp only [List.foldl_cons]
      refine le_trans ?_ (ih (classifyStep s r))
      cases hr : r.bind_type <;> simp [classifyStep, hr, le_max_left]

theorem classify_foldl_raw_ge (l : List Resource) :
    ∀ s : ClassifyState, ∀ r ∈ l, isSampler r = true →
      r.slot ≤ (l.foldl classifyStep s).image_offset_raw := by
  induction l with
  | nil => intro s r hr; simp at hr
  | cons r0 rs ih =>
      intro s r hr hs
      simp only [List.mem_cons] at hr
      rcases hr with hr | hr
      · subst hr
        have hbt : r.bind_type = BindType.Sampler := by
          cases h : r.bind_type <;> simp [isSampler, h] at hs ⊢
        simp only [List.foldl_cons]
        refine le_trans ?_ (classify_foldl_raw_mono rs (classifyStep s r))
        simp [classifyStep, hbt, le_max_right]
      · exact ih (classifyStep s r0) r hr hs

theorem classify_foldl_raw_attained (l : List Resource) :
    ∀ s : ClassifyState,
      (l.foldl classifyStep s).image_offset_raw = s.image_offset_raw ∨
        ∃ r ∈ l, isSampler r = true ∧
          (l.foldl classifyStep s).image_offset_raw = r.slot := by
  induction l with
  | nil => intro s; left; rfl
  | cons r0 rs ih =>
      intro s
      simp only [List.foldl_cons]
      rcases ih (classifyStep s r0) with h | ⟨r, hr, hs, he⟩
      · rw [h]
        cases hbt : r0.bind_type with
        | Sampler =>
            simp only [classifyStep, hbt]
            rcases max_cases s.image_offset_raw r0.slot with ⟨he, _⟩ | ⟨he, _⟩
            · left; simp [he]
            · right
              exact ⟨r0, List.mem_cons_self _ _, by simp [isSampler, hbt],
                by simp [he]⟩
        | Image => left; simp [classifyStep, hbt]
        | UniformBuffer => left; simp [classifyStep, hbt]
        | StorageBuffer => left; simp [classifyStep, hbt]
      · right
        exact ⟨r, List.mem_cons_of_mem _ hr, hs, he⟩

theorem classify_foldl_raw_no_sampler (l : List Resource)
    (h : ∀ r ∈ l, isSampler r = false) :
    ∀ s : ClassifyState,
      (l.foldl classifyStep s).image_offset_raw = s.image_offset_raw := by
  induction l with
  | nil => intro s; rfl
  | cons r0 rs ih =>
      intro s
      simp only [List.foldl_cons]
      have h0 := h r0 (List.mem_cons_self _ _)
      have hbt : r0.bind_type ≠ BindType.Sampler := by
        intro hc; simp [isSampler, hc] at h0
      have : (classifyStep s r0).image_offset_raw = s.image_offset_raw := by
        cases hr : r0.bind_type <;> simp [classifyStep, hr] at hbt ⊢
      rw [ih (fun r hr => h r (List.mem_cons_of_mem _ hr)), this]

/-! Lemmas about the spec-side in-order population. -/

theorem populateInOrder_length (io : Int) :
    ∀ (l : List Resource) (off : Nat),
      (populateInOrder io l off).length = l.length := by
  intro l
  induction l with
  | nil => intro off; rfl
  | cons r rs ih => intro off; simp [populateInOrder, ih]

theorem populateInOrder_append (io : Int) :
    ∀ (xs ys : List Resource) (off : Nat),
      populateInOrder io (xs ++ ys) off
        = populateInOrder io xs off
          ++ populateInOrder io ys (off + ((xs.map fun r => r.name.length).sum)) := by
  intro xs
  induction xs with
  | nil => intro ys off; simp [populateInOrder]
  | cons r rs ih =>
      intro ys off
      simp only [List.cons_append, populateInOrder, List.append_eq]
      rw [ih]
      simp only [List.map_cons, List.sum_cons, Nat.add_assoc]

theorem populateInOrder_get (io : Int) :
    ∀ (l : List Resource) (off : Nat) (k : Nat) (hk : k < l.length),
      (populateInOrder io l off).get
          ⟨k, by rw [populateInOrder_length]; exact hk⟩
        = mkInput (l.get ⟨k, hk⟩) (locOf io (l.get ⟨k, hk⟩))
            (off + (((l.take k).map fun r => r.name.length).sum)) := by
  intro l
  induction l with
  | nil => intro off k hk; simp at hk
  | cons r rs ih =>
      intro off k hk
      cases k with
      | zero => simp [populateInOrder]
      | succ k =>
          have hk' : k < rs.length := Nat.lt_of_succ_lt_succ hk
          simp only [populateInOrder, List.get_cons_succ, List.take_succ_cons,
            List.map_cons, List.sum_cons]
          rw [ih (off + r.name.length) k hk']
          congr 1
          omega

/-! Decomposition of the populated table. -/

theorem filter_selUbo (l : List Resource) :
    (l.filter fun r => (selUbo r).isSome) = l.filter isUbo :=
  List.filter_congr fun r _ => selUbo_isSome r

theorem filter_selTex (io : Int) (l : List Resource) :
    (l.filter fun r => (selTex io r).isSome) = l.filter isTex :=
  List.filter_congr fun r _ => selTex_isSome io r

theorem filter_selSsbo (l : List Resource) :
    (l.filter fun r => (selSsbo r).isSome) = l.filter isSsbo :=
  List.filter_congr fun r _ => selSsbo_isSome r

theorem classify_ubo_len (l : List Resource) :
    (classify l).ubo_len = (l.filter isUbo).length := by
  unfold classify
  rw [classify_foldl_ubo]
  simp

theorem classify_uniform_len (l : List Resource) :
    (classify l).uniform_len = (l.filter isTex).length := by
  unfold classify
  rw [classify_foldl_uniform]
  simp

theorem classify_ssbo_len (l : List Resource) :
    (classify l).ssbo_len = (l.filter isSsbo).length := by
  unfold classify
  rw [classify_foldl_ssbo]
  simp

/-- The three population loops of `init` emit exactly the records of the
spec-side fixed group order, with the name-buffer offset threaded through. -/
theorem populated_eq_inOrder (pass_resources batch_resources : List Resource) :
    populatedOf pass_resources batch_resources
      = populateInOrder (image_offset_of (pass_resources ++ batch_resources))
          (specGroupOrder (pass_resources ++ batch_resources)) 0 := by
  set all := pass_resources ++ batch_resources with hall
  set io := image_offset_of all with hio
  have hu : (populateLoop selUbo all 0).1
      = populateInOrder io (all.filter isUbo) 0 :=
    populateLoop_eq_inOrder io selUbo isUbo (selUbo_spec io) all 0
  have husnd : (populateLoop selUbo all 0).2 = nameBytes (all.filter isUbo) := by
    rw [populateLoop_snd, filter_selUbo]
    simp [nameBytes]
  have ht : (populateLoop (selTex io) all ((populateLoop selUbo all 0).2)).1
      = populateInOrder io (all.filter isTex) (nameBytes (all.filter isUbo)) := by
    rw [populateLoop_eq_inOrder io (selTex io) isTex (selTex_spec io) all _, husnd]
  have htsnd : (populateLoop (selTex io) all ((populateLoop selUbo all 0).2)).2
      = nameBytes (all.filter isUbo) + nameBytes (all.filter isTex) := by
    rw [populateLoop_snd, filter_selTex, husnd]
    simp [nameBytes]
  have hs : (populateLoop selSsbo all
        ((populateLoop (selTex io) all ((populateLoop selUbo all 0).2)).2)).1
      = populateInOrder io (all.filter isSsbo)
          (nameBytes (all.filter isUbo) + nameBytes (all.filter isTex)) := by
    rw [populateLoop_eq_inOrder io selSsbo isSsbo (selSsbo_spec io) all _, htsnd]
  show (populateLoop selUbo all 0).1
      ++ (populateLoop (selTex io) all ((populateLoop selUbo all 0).2)).1
      ++ (populateLoop selSsbo all
          ((populateLoop (selTex io) all ((populateLoop selUbo all 0).2)).2)).1
    = populateInOrder io (specGroupOrder all) 0
  have hr : populateInOrder io (specGroupOrder all) 0
      = populateInOrder io (all.filter isUbo) 0
        ++ (populateInOrder io (all.filter isTex)
              (0 + nameBytes (all.filter isUbo))
          ++ populateInOrder io (all.filter isSsbo)
              (0 + nameBytes (all.filter isUbo)
                + nameBytes (all.filter isTex))) := by
    unfold specGroupOrder
    rw [show all.filter isUbo ++ all.filter isTex ++ all.filter isSsbo
        = all.filter isUbo ++ (all.filter isTex ++ all.filter isSsbo) from
        List.append_assoc _ _ _]
    rw [populateInOrder_append, populateInOrder_append]
    rfl
  rw [hu, ht, hs, hr, ← List.append_assoc]
  simp only [Nat.zero_add]

/-- The sort of `init` acts independently on the three group sub-ranges. -/
theorem sort_inputs_decompose (A B C : List ShaderInput) :
    sort_inputs A.length B.length (A ++ B ++ C)
      = List.insertionSort nameLe A ++ List.insertionSort nameLe B
        ++ List.insertionSort nameLe C := by
  unfold sort_inputs
  rw [show A ++ B ++ C = A ++ (B ++ C) from List.append_assoc A B C]
  rw [List.take_left, List.drop_left, List.take_left, List.drop_left,
    List.append_assoc]

/-! Partition of the resource list into the three population groups. -/

theorem filter_three_partition (l : List Resource) :
    (l.filter isUbo).length + (l.filter isTex).length
      + (l.filter isSsbo).length = l.length := by
  induction l with
  | nil => rfl
  | cons r rs ih =>
      cases h : r.bind_type <;>
        (simp [List.filter_cons, isUbo, isTex, isSsbo, h]; omega)

theorem nameBytes_three_partition (l : List Resource) :
    nameBytes (l.filter isUbo) + nameBytes (l.filter isTex)
      + nameBytes (l.filter isSsbo) = nameBytes l := by
  induction l with
  | nil => rfl
  | cons r rs ih =>
      simp only [nameBytes] at ih ⊢
      cases h : r.bind_type <;>
        (simp [List.filter_cons, isUbo, isTex, isSsbo, h]; omega)

/-! Decomposition of the table into its three sorted sub-ranges. -/

theorem populated_decomp (pass_resources batch_resources : List Resource) :
    populatedOf pass_resources batch_resources
      = uboRecsOf pass_resources batch_resources
        ++ texRecsOf pass_resources batch_resources
        ++ ssboRecsOf pass_resources batch_resources := by
  rw [populated_eq_inOrder]
  set all := pass_resources ++ batch_resources
  set io := image_offset_of all
  unfold specGroupOrder uboRecsOf texRecsOf ssboRecsOf
  rw [show all.filter isUbo ++ all.filter isTex ++ all.filter isSsbo
      = all.filter isUbo ++ (all.filter isTex ++ all.filter isSsbo) from
      List.append_assoc _ _ _]
  rw [populateInOrder_append, populateInOrder_append, ← List.append_assoc]
  simp only [Nat.zero_add]
  rfl

theorem uboRecs_length (pass_resources batch_resources : List Resource) :
    (uboRecsOf pass_resources batch_resources).length
      = (classify (pass_resources ++ batch_resources)).ubo_len := by
  rw [uboRecsOf, populateInOrder_length, classify_ubo_len]

theorem texRecs_length (pass_resources batch_resources : List Resource) :
    (texRecsOf pass_resources batch_resources).length
      = (classify (pass_resources ++ batch_resources)).uniform_len := by
  rw [texRecsOf, populateInOrder_length, classify_uniform_len]

theorem ssboRecs_length (pass_resources batch_resources : List Resource) :
    (ssboRecsOf pass_resources batch_resources).length
      = (classify (pass_resources ++ batch_resources)).ssbo_len := by
  rw [ssboRecsOf, populateInOrder_length, classify_ssbo_len]

theorem sortedUbo_length (pass_resources batch_resources : List Resource) :
    (sortedUboOf pass_resources batch_resources).length
      = (classify (pass_resources ++ batch_resources)).ubo_len := by
  rw [sortedUboOf, List.length_insertionSort, uboRecs_length]

theorem sortedTex_length (pass_resources batch_resources : List Resource) :
    (sortedTexOf pass_resources batch_resources).length
      = (classify (pass_resources ++ batch_resources)).uniform_len := by
  rw [sortedTexOf, List.length_insertionSort, texRecs_length]

theorem sortedSsbo_length (pass_resources batch_resources : List Resource) :
    (sortedSsboOf pass_resources batch_resources).length
      = (classify (pass_resources ++ batch_resources)).ssbo_len := by
  rw [sortedSsboOf, List.length_insertionSort, ssboRecs_length]

theorem preOf_ubo_len (pass_resources batch_resources : List Resource) :
    (preOf pass_resources batch_resources).ubo_len
      = (classify (pass_resources ++ batch_resources)).ubo_len := rfl

theorem preOf_uniform_len (pass_resources batch_resources : List Resource) :
    (preOf pass_resources batch_resources).uniform_len
      = (classify (pass_resources ++ batch_resources)).uniform_len := rfl

theorem preOf_ssbo_len (pass_resources batch_resources : List Resource) :
    (preOf pass_resources batch_resources).ssbo_len
      = (classify (pass_resources ++ batch_resources)).ssbo_len := rfl

theorem preOf_image_offset (pass_resources batch_resources : List Resource) :
    (preOf pass_resources batch_resources).image_offset
      = image_offset_of (pass_resources ++ batch_resources) := rfl

theorem preOf_dsl (pass_resources batch_resources : List Resource) :
    (preOf pass_resources batch_resources).descriptor_set_locations
      = List.replicate ((classify (pass_resources ++ batch_resources)).ubo_len
          + (classify (pass_resources ++ batch_resources)).uniform_len
          + (classify (pass_resources ++ batch_resources)).ssbo_len)
          none := rfl

theorem preOf_inputs_decomp (pass_resources batch_resources : List Resource) :
    (preOf pass_resources batch_resources).inputs
      = sortedUboOf pass_resources batch_resources
        ++ sortedTexOf pass_resources batch_resources
        ++ sortedSsboOf pass_resources batch_resources := by
  have h0 : (preOf pass_resources batch_resources).inputs
      = sort_inputs (classify (pass_resources ++ batch_resources)).ubo_len
          (classify (pass_resources ++ batch_resources)).uniform_len
          (populatedOf pass_resources batch_resources) := rfl
  rw [h0, populated_decomp,
    show (classify (pass_resources ++ batch_resources)).ubo_len
      = (uboRecsOf pass_resources batch_resources).length from
      (uboRecs_length _ _).symm,
    show (classify (pass_resources ++ batch_resources)).uniform_len
      = (texRecsOf pass_resources batch_resources).length from
      (texRecs_length _ _).symm,
    sort_inputs_decompose]
  rfl

theorem preOf_inputs_length (pass_resources batch_resources : List Resource) :
    (preOf pass_resources batch_resources).inputs.length
      = (pass_resources ++ batch_resources).length := by
  rw [preOf_inputs_decomp]
  simp only [List.length_append, sortedUbo_length, sortedTex_length,
    sortedSsbo_length, classify_ubo_len, classify_uniform_len,
    classify_ssbo_len]
  have h := filter_three_partition (pass_resources ++ batch_resources)
  simpa using h

theorem preOf_inputs_perm (pass_resources batch_resources : List Resource) :
    (preOf pass_resources batch_resources).inputs.Perm
      (populatedOf pass_resources batch_resources) := by
  rw [preOf_inputs_decomp, populated_decomp]
  exact ((List.perm_insertionSort nameLe _).append
    (List.perm_insertionSort nameLe _)).append (List.perm_insertionSort nameLe _)

/-! The three sub-range slices of the sorted table, as consumed by
`input_lookup`. -/

theorem slice_ubo (pass_resources batch_resources : List Resource) :
    (((preOf pass_resources batch_resources).inputs.drop 0).take
        (preOf pass_resources batch_resources).ubo_len)
      = sortedUboOf pass_resources batch_resources := by
  rw [List.drop_zero, preOf_inputs_decomp, preOf_ubo_len, List.append_assoc]
  exact List.take_left' (sortedUbo_length _ _)

theorem slice_tex (pass_resources batch_resources : List Resource) :
    (((preOf pass_resources batch_resources).inputs.drop
        (preOf pass_resources batch_resources).ubo_len).take
        (preOf pass_resources batch_resources).uniform_len)
      = sortedTexOf pass_resources batch_resources := by
  rw [preOf_inputs_decomp, preOf_ubo_len, preOf_uniform_len,
    List.append_assoc, List.drop_left' (sortedUbo_length _ _)]
  exact List.take_left' (sortedTex_length _ _)

theorem slice_ssbo (pass_resources batch_resources : List Resource) :
    (((preOf pass_resources batch_resources).inputs.drop
        ((preOf pass_resources batch_resources).ubo_len
          + (preOf pass_resources batch_resources).uniform_len)).take
        (preOf pass_resources batch_resources).ssbo_len)
      = sortedSsboOf pass_resources batch_resources := by
  rw [preOf_inputs_decomp, preOf_ubo_len, preOf_uniform_len, preOf_ssbo_len,
    List.drop_left' (by rw [List.length_append, sortedUbo_length,
      sortedTex_length])]
  rw [List.take_of_length_le (by rw [sortedSsbo_length])]

/-! Lemmas about the sub-range lookup. -/

theorem input_lookup_some_full (inputs : List ShaderInput) (start len : Nat)
    (key : Int) (j : Nat) (h : input_lookup inputs start len key = some j) :
    ∃ hj : j < inputs.length,
      start ≤ j ∧ j < start + ((inputs.drop start).take len).length
        ∧ inputs[j].binding = key := by
  unfold input_lookup at h
  cases hf : ((inputs.drop start).take len).findIdx?
      (fun inp => inp.binding == key) with
  | none => rw [hf] at h; exact absurd h (by simp)
  | some i =>
      rw [hf] at h
      have hj : j = start + i := (Option.some.inj h).symm
      obtain ⟨hi, hp, _⟩ := List.findIdx?_eq_some_iff_getElem.mp hf
      have hkey : ((inputs.drop start).take len)[i].binding = key :=
        beq_iff_eq.mp hp
      have hi2 : i < (inputs.drop start).length := by
        have h3 := hi
        rw [List.length_take] at h3
        exact (lt_min_iff.mp h3).2
      have hlt : start + i < inputs.length := by
        rw [List.length_drop] at hi2; omega
      have hval : ((inputs.drop start).take len)[i] = inputs[start + i] := by
        rw [List.getElem_take, List.getElem_drop]
      subst hj
      refine ⟨hlt, Nat.le_add_right _ _, by omega, ?_⟩
      rw [← hval]
      exact hkey

theorem input_lookup_found (inputs : List ShaderInput) (start len : Nat)
    (key : Int)
    (hex : ∃ rec ∈ (inputs.drop start).take len, rec.binding = key) :
    ∃ j, input_lookup inputs start len key = some j := by
  obtain ⟨rec, hmem, hb⟩ := hex
  have hex2 : ∃ x, x ∈ (inputs.drop start).take len
      ∧ (fun inp => inp.binding == key) x = true :=
    ⟨rec, hmem, by simp [hb]⟩
  have hf := List.findIdx?_eq_some_of_exists hex2
  refine ⟨start + ((inputs.drop start).take len).findIdx
      (fun inp => inp.binding == key), ?_⟩
  unfold input_lookup
  rw [hf]

theorem populateInOrder_mem (io : Int) :
    ∀ (l : List Resource) (off : Nat) (r : Resource), r ∈ l →
      ∃ rec ∈ populateInOrder io l off,
        rec.binding = locOf io r ∧ rec.name = r.name := by
  intro l
  induction l with
  | nil => intro off r hr; simp at hr
  | cons a rs ih =>
      intro off r hr
      rcases List.mem_cons.mp hr with h | h
      · subst h
        exact ⟨mkInput r (locOf io r) off, List.mem_cons_self _ _, rfl, rfl⟩
      · obtain ⟨rec, hm, hb, hn⟩ := ih (off + a.name.length) r h
        exact ⟨rec, List.mem_cons_of_mem _ hm, hb, hn⟩

/-- A successful lookup during the second pass lands in the sub-range of the
resource's population group, and the record found there carries the searched
binding (the resource's location). -/
theorem getRes_some_spec (pass_resources batch_resources : List Resource)
    (r : Resource) (j : Nat)
    (h : shader_input_getRes (preOf pass_resources batch_resources) r
      = some j) :
    ∃ hj : j < (preOf pass_resources batch_resources).inputs.length,
      ((preOf pass_resources batch_resources).inputs[j]).binding
          = locOf (image_offset_of (pass_resources ++ batch_resources)) r
        ∧ (groupOf r = 0 →
            j < (classify (pass_resources ++ batch_resources)).ubo_len)
        ∧ (groupOf r = 1 →
            (classify (pass_resources ++ batch_resources)).ubo_len ≤ j
              ∧ j < (classify (pass_resources ++ batch_resources)).ubo_len
                + (classify (pass_resources ++ batch_resources)).uniform_len)
        ∧ (groupOf r = 2 →
            (classify (pass_resources ++ batch_resources)).ubo_len
              + (classify (pass_resources ++ batch_resources)).uniform_len ≤ j
              ∧ j < (classify (pass_resources ++ batch_resources)).ubo_len
                + (classify (pass_resources ++ batch_resources)).uniform_len
                + (classify (pass_resources ++ batch_resources)).ssbo_len) := by
  cases hbt : r.bind_type with
  | UniformBuffer =>
      have h2 : input_lookup (preOf pass_resources batch_resources).inputs 0
          (preOf pass_resources batch_resources).ubo_len r.slot = some j := by
        simpa [shader_input_getRes, shader_input_get, hbt, ubo_get] using h
      obtain ⟨hj, hge, hlt, hb⟩ := input_lookup_some_full _ _ _ _ _ h2
      rw [slice_ubo, sortedUbo_length] at hlt
      refine ⟨hj, by simp [locOf, hbt, hb], ?_, ?_, ?_⟩
      · intro _; omega
      · intro hg; simp [groupOf, hbt] at hg
      · intro hg; simp [groupOf, hbt] at hg
  | Sampler =>
      have h2 : input_lookup (preOf pass_resources batch_resources).inputs
          (preOf pass_resources batch_resources).ubo_len
          (preOf pass_resources batch_resources).uniform_len r.slot
          = some j := by
        simpa [shader_input_getRes, shader_input_get, hbt, texture_get] using h
      obtain ⟨hj, hge, hlt, hb⟩ := input_lookup_some_full _ _ _ _ _ h2
      rw [slice_tex, sortedTex_length] at hlt
      rw [preOf_ubo_len] at hge hlt
      refine ⟨hj, by simp [locOf, hbt, hb], ?_, ?_, ?_⟩
      · intro hg; simp [groupOf, hbt] at hg
      · intro _; omega
      · intro hg; simp [groupOf, hbt] at hg
  | Image =>
      have h2 : input_lookup (preOf pass_resources batch_resources).inputs
          (preOf pass_resources batch_resources).ubo_len
          (preOf pass_resources batch_resources).uniform_len
          (r.slot + (preOf pass_resources batch_resources).image_offset)
          = some j := by
        simpa [shader_input_getRes, shader_input_get, hbt, texture_get] using h
      obtain ⟨hj, hge, hlt, hb⟩ := input_lookup_some_full _ _ _ _ _ h2
      rw [slice_tex, sortedTex_length] at hlt
      rw [preOf_ubo_len] at hge hlt
      rw [preOf_image_offset] at hb
      refine ⟨hj, by simp [locOf, hbt, hb], ?_, ?_, ?_⟩
      · intro hg; simp [groupOf, hbt] at hg
      · intro _; omega
      · intro hg; simp [groupOf, hbt] at hg
  | StorageBuffer =>
      have h2 : input_lookup (preOf pass_resources batch_resources).inputs
          ((preOf pass_resources batch_resources).ubo_len
            + (preOf pass_resources batch_resources).uniform_len)
          (preOf pass_resources batch_resources).ssbo_len r.slot
          = some j := by
        simpa [shader_input_getRes, shader_input_get, hbt, ssbo_get] using h
      obtain ⟨hj, hge, hlt, hb⟩ := input_lookup_some_full _ _ _ _ _ h2
      rw [slice_ssbo, sortedSsbo_length] at hlt
      rw [preOf_ubo_len, preOf_uniform_len] at hge hlt
      refine ⟨hj, by simp [locOf, hbt, hb], ?_, ?_, ?_⟩
      · intro hg; simp [groupOf, hbt] at hg
      · intro hg; simp [groupOf, hbt] at hg
      · intro _; omega

/-- Every resource of the descriptor list is found by the second-pass
lookup: its own record was emitted into the sub-range that the lookup
searches, with exactly the searched binding. -/
theorem getRes_found (pass_resources batch_resources : List Resource)
    (r : Resource) (hr : r ∈ pass_resources ++ batch_resources) :
    ∃ j, shader_input_getRes (preOf pass_resources batch_resources) r
      = some j := by
  cases hbt : r.bind_type with
  | UniformBuffer =>
      have hf : r ∈ (pass_resources ++ batch_resources).filter isUbo :=
        List.mem_filter.mpr ⟨hr, by simp [isUbo, hbt]⟩
      obtain ⟨rec, hm, hbind, _⟩ :=
        populateInOrder_mem (image_offset_of (pass_resources ++ batch_resources))
          _ 0 r hf
      have hm2 : rec ∈ sortedUboOf pass_resources batch_resources :=
        (List.perm_insertionSort nameLe _).mem_iff.mpr hm
      have hex : ∃ rec2 ∈ ((preOf pass_resources batch_resources).inputs.drop
          0).take (preOf pass_resources batch_resources).ubo_len,
          rec2.binding = r.slot := by
        rw [slice_ubo]
        exact ⟨rec, hm2, by rw [hbind]; simp [locOf, hbt]⟩
      obtain ⟨j, hj⟩ := input_lookup_found _ _ _ _ hex
      refine ⟨j, ?_⟩
      simpa [shader_input_getRes, shader_input_get, hbt, ubo_get] using hj
  | Sampler =>
      have hf : r ∈ (pass_resources ++ batch_resources).filter isTex :=
        List.mem_filter.mpr ⟨hr, by simp [isTex, hbt]⟩
      obtain ⟨rec, hm, hbind, _⟩ :=
        populateInOrder_mem (image_offset_of (pass_resources ++ batch_resources))
          _ (nameBytes ((pass_resources ++ batch_resources).filter isUbo)) r hf
      have hm2 : rec ∈ sortedTexOf pass_resources batch_resources :=
        (List.perm_insertionSort nameLe _).mem_iff.mpr hm
      have hex : ∃ rec2 ∈ ((preOf pass_resources batch_resources).inputs.drop
          (preOf pass_resources batch_resources).ubo_len).take
          (preOf pass_resources batch_resources).uniform_len,
          rec2.binding = r.slot := by
        rw [slice_tex]
        exact ⟨rec, hm2, by rw [hbind]; simp [locOf, hbt]⟩
      obtain ⟨j, hj⟩ := input_lookup_found _ _ _ _ hex
      refine ⟨j, ?_⟩
      simpa [shader_input_getRes, shader_input_get, hbt, texture_get] using hj
  | Image =>
      have hf : r ∈ (pass_resources ++ batch_resources).filter isTex :=
        List.mem_filter.mpr ⟨hr, by simp [isTex, hbt]⟩
      obtain ⟨rec, hm, hbind, _⟩ :=
        populateInOrder_mem (image_offset_of (pass_resources ++ batch_resources))
          _ (nameBytes ((pass_resources ++ batch_resources).filter isUbo)) r hf
      have hm2 : rec ∈ sortedTexOf pass_resources batch_resources :=
        (List.perm_insertionSort nameLe _).mem_iff.mpr hm
      have hex : ∃ rec2 ∈ ((preOf pass_resources batch_resources).inputs.drop
          (preOf pass_resources batch_resources).ubo_len).take
          (preOf pass_resources batch_resources).uniform_len,
          rec2.binding
            = r.slot + (preOf pass_resources batch_resources).image_offset := by
        rw [slice_tex]
        refine ⟨rec, hm2, ?_⟩
        rw [hbind, preOf_image_offset]
        simp [locOf, hbt]
      obtain ⟨j, hj⟩ := input_lookup_found _ _ _ _ hex
      refine ⟨j, ?_⟩
      simpa [shader_input_getRes, shader_input_get, hbt, texture_get] using hj
  | StorageBuffer =>
      have hf : r ∈ (pass_resources ++ batch_resources).filter isSsbo :=
        List.mem_filter.mpr ⟨hr, by simp [isSsbo, hbt]⟩
      obtain ⟨rec, hm, hbind, _⟩ :=
        populateInOrder_mem (image_offset_of (pass_resources ++ batch_resources))
          _ (nameBytes ((pass_resources ++ batch_resources).filter isUbo)
            + nameBytes ((pass_resources ++ batch_resources).filter isTex)) r hf
      have hm2 : rec ∈ sortedSsboOf pass_resources batch_resources :=
        (List.perm_insertionSort nameLe _).mem_iff.mpr hm
      have hex : ∃ rec2 ∈ ((preOf pass_resources batch_resources).inputs.drop
          ((preOf pass_resources batch_resources).ubo_len
            + (preOf pass_resources batch_resources).uniform_len)).take
          (preOf pass_resources batch_resources).ssbo_len,
          rec2.binding = r.slot := by
        rw [slice_ssbo]
        exact ⟨rec, hm2, by rw [hbind]; simp [locOf, hbt]⟩
      obtain ⟨j, hj⟩ := input_lookup_found _ _ _ _ hex
      refine ⟨j, ?_⟩
      simpa [shader_input_getRes, shader_input_get, hbt, ssbo_get] using hj

/-! Distinctness of searched bindings, and injectivity of the second-pass
lookup across resources. -/

theorem sampler_slot_lt_io (l : List Resource) (r : Resource) (hr : r ∈ l)
    (hbt : r.bind_type = .Sampler) : r.slot < image_offset_of l := by
  have h := classify_foldl_raw_ge l ⟨0, 0, 0, -1⟩ r hr
    (by simp [isSampler, hbt])
  unfold image_offset_of classify
  omega

theorem locOf_inj_of_pair (l : List Resource) (hs : SlotsNonneg l)
    (a c : Resource) (ha : a ∈ l) (hc : c ∈ l)
    (hpair : a.bind_type = c.bind_type → a.slot ≠ c.slot)
    (hgrp : groupOf a = groupOf c) :
    locOf (image_offset_of l) a ≠ locOf (image_offset_of l) c := by
  cases hba : a.bind_type <;> cases hbc : c.bind_type <;>
    simp [groupOf, hba, hbc] at hgrp ⊢
  · have hne := hpair (by rw [hba, hbc])
    simp [locOf, hba, hbc]
    omega
  · have hne := hpair (by rw [hba, hbc])
    simp [locOf, hba, hbc]
    omega
  · have hne := hpair (by rw [hba, hbc])
    simp [locOf, hba, hbc]
    omega
  · have h1 : a.slot < image_offset_of l := sampler_slot_lt_io l a ha hba
    have h2 : (0 : Int) ≤ c.slot := hs c hc
    simp [locOf, hba, hbc]
    omega
  · have h1 : c.slot < image_offset_of l := sampler_slot_lt_io l c hc hbc
    have h2 : (0 : Int) ≤ a.slot := hs a ha
    simp [locOf, hba, hbc]
    omega
  · have hne := hpair (by rw [hba, hbc])
    simp [locOf, hba, hbc]
    omega

theorem groupOf_cases (r : Resource) :
    groupOf r = 0 ∨ groupOf r = 1 ∨ groupOf r = 2 := by
  cases h : r.bind_type <;> simp [groupOf, h]

/-- Two resources that may not share a bind type and slot are never resolved
to the same table position by the second-pass lookup. -/
theorem getRes_inj (pass_resources batch_resources : List Resource)
    (hs : SlotsNonneg (pass_resources ++ batch_resources))
    (a c : Resource) (ha : a ∈ pass_resources ++ batch_resources)
    (hc : c ∈ pass_resources ++ batch_resources)
    (hpair : a.bind_type = c.bind_type → a.slot ≠ c.slot) (j : Nat)
    (hja : shader_input_getRes (preOf pass_resources batch_resources) a
      = some j)
    (hjc : shader_input_getRes (preOf pass_resources batch_resources) c
      = some j) : False := by
  obtain ⟨hj1, hb1, h01, h11, h21⟩ :=
    getRes_some_spec pass_resources batch_resources a j hja
  obtain ⟨hj2, hb2, h02, h12, h22⟩ :=
    getRes_some_spec pass_resources batch_resources c j hjc
  rcases groupOf_cases a with g1 | g1 | g1 <;>
    rcases groupOf_cases c with g2 | g2 | g2
  · exact locOf_inj_of_pair _ hs a c ha hc hpair (by rw [g1, g2])
      (by rw [← hb1, ← hb2])
  · have x1 := h01 g1; have x2 := h12 g2; omega
  · have x1 := h01 g1; have x2 := h22 g2; omega
  · have x1 := h11 g1; have x2 := h02 g2; omega
  · exact locOf_inj_of_pair _ hs a c ha hc hpair (by rw [g1, g2])
      (by rw [← hb1, ← hb2])
  · have x1 := h11 g1; have x2 := h22 g2; omega
  · have x1 := h21 g1; have x2 := h02 g2; omega
  · have x1 := h21 g1; have x2 := h12 g2; omega
  · exact locOf_inj_of_pair _ hs a c ha hc hpair (by rw [g1, g2])
      (by rw [← hb1, ← hb2])

/-! Characterization of the second-pass writes. -/

theorem assignLocations_getElem_untouched (rs : List Resource) :
    ∀ (s : VKShaderInterface) (c i : Nat),
      (∀ r ∈ rs, shader_input_getRes s r ≠ some i) →
      (assignLocations s c rs).descriptor_set_locations[i]?
        = s.descriptor_set_locations[i]? := by
  induction rs with
  | nil => intro s c i _; rfl
  | cons r rs ih =>
      intro s c i hno
      simp only [assignLocations]
      cases h : shader_input_getRes s r with
      | some i0 =>
          have hne : i0 ≠ i := fun he =>
            hno r (List.mem_cons_self _ _) (he ▸ h)
          rw [ih _ _ _ (fun r' hr' => by
            rw [update_shader_input_getRes]
            exact hno r' (List.mem_cons_of_mem _ hr'))]
          exact List.getElem?_set_ne hne
      | none =>
          exact ih _ _ _ (fun r' hr' => hno r' (List.mem_cons_of_mem _ hr'))

theorem assignLocations_getElem_written (rs : List Resource) :
    ∀ (s : VKShaderInterface) (c j i : Nat) (hj : j < rs.length),
      shader_input_getRes s (rs.get ⟨j, hj⟩) = some i →
      i < s.descriptor_set_locations.length →
      (∀ k (hk : k < rs.length), j < k →
        shader_input_getRes s (rs.get ⟨k, hk⟩) ≠ some i) →
      (assignLocations s c rs).descriptor_set_locations[i]?
        = some (some (c + j)) := by
  induction rs with
  | nil => intro s c j i hj; simp at hj
  | cons r rs ih =>
      intro s c j i hj hw hlen hlater
      cases j with
      | zero =>
          simp only [List.get] at hw
          simp only [assignLocations, hw]
          rw [assignLocations_getElem_untouched rs _ _ _ (fun r' hr' => by
            rw [update_shader_input_getRes]
            obtain ⟨⟨k, hk⟩, hkeq⟩ := List.mem_iff_get.mp hr'
            have hl := hlater (k + 1) (Nat.succ_lt_succ hk) (Nat.succ_pos k)
            rw [List.get_cons_succ, hkeq] at hl
            exact hl)]
          simp only [descriptor_set_location_update]
          rw [List.getElem?_set_self hlen]
          simp
      | succ j =>
          have hj' : j < rs.length := Nat.lt_of_succ_lt_succ hj
          simp only [List.get_cons_succ] at hw
          simp only [assignLocations]
          cases h : shader_input_getRes s r with
          | some i0 =>
              have hres := ih (descriptor_set_location_update s i0 c) (c + 1)
                j i hj'
                (by rw [update_shader_input_getRes]; exact hw)
                (by simpa [descriptor_set_location_update] using hlen)
                (fun k hk hjk => by
                  rw [update_shader_input_getRes]
                  exact hlater (k + 1) (by simpa using Nat.succ_lt_succ hk)
                    (Nat.succ_lt_succ hjk))
              rw [hres]
              have : c + 1 + j = c + (j + 1) := by omega
              rw [this]
          | none =>
              have hres := ih s (c + 1) j i hj' hw hlen
                (fun k hk hjk =>
                  hlater (k + 1) (by simpa using Nat.succ_lt_succ hk)
                    (Nat.succ_lt_succ hjk))
              rw [hres]
              have : c + 1 + j = c + (j + 1) := by omega
              rw [this]

theorem counts_sum (l : List Resource) :
    (classify l).ubo_len + (classify l).uniform_len + (classify l).ssbo_len
      = l.length := by
  rw [classify_ubo_len, classify_uniform_len, classify_ssbo_len]
  exact filter_three_partition l

theorem init_getRes (pass_resources batch_resources : List Resource)
    (r : Resource) :
    shader_input_getRes (init pass_resources batch_resources) r
      = shader_input_getRes (preOf pass_resources batch_resources) r :=
  assignLocations_shader_input_getRes _ _ _ _

theorem init_inputs (pass_resources batch_resources : List Resource) :
    (init pass_resources batch_resources).inputs
      = (preOf pass_resources batch_resources).inputs :=
  assignLocations_inputs _ _ _

theorem init_image_offset_eq (pass_resources batch_resources : List Resource) :
    (init pass_resources batch_resources).image_offset
      = image_offset_of (pass_resources ++ batch_resources) :=
  assignLocations_image_offset _ _ _

theorem init_dsl_length (pass_resources batch_resources : List Resource) :
    (init pass_resources batch_resources).descriptor_set_locations.length
      = (pass_resources ++ batch_resources).length := by
  rw [show (init pass_resources batch_resources).descriptor_set_locations.length
      = (preOf pass_resources batch_resources).descriptor_set_locations.length
      from assignLocations_dsl_length _ _ _, preOf_dsl,
    List.length_replicate]
  exact counts_sum _

/-- Main alignment lemma: under the spec preconditions, the `j`-th resource
of the original list is resolved to a unique table position `i`, and the
second pass stores counter value `j` exactly there. -/
theorem alignment_main (pass_resources batch_resources : List Resource)
    (hs : SlotsNonneg (pass_resources ++ batch_resources))
    (hu : UniqueTypeSlot (pass_resources ++ batch_resources)) :
    ∀ j (hj : j < (pass_resources ++ batch_resources).length),
      ∃ i, shader_input_getRes (preOf pass_resources batch_resources)
          ((pass_resources ++ batch_resources).get ⟨j, hj⟩) = some i
        ∧ i < (pass_resources ++ batch_resources).length
        ∧ (init pass_resources batch_resources).descriptor_set_locations[i]?
            = some (some j) := by
  intro j hj
  obtain ⟨i, hi⟩ := getRes_found pass_resources batch_resources
    ((pass_resources ++ batch_resources).get ⟨j, hj⟩) (List.get_mem _ _ _)
  obtain ⟨hilt, _⟩ := getRes_some_spec pass_resources batch_resources _ i hi
  have hin : i < (pass_resources ++ batch_resources).length := by
    rw [← preOf_inputs_length pass_resources batch_resources]
    exact hilt
  have hlen : i < (preOf pass_resources
      batch_resources).descriptor_set_locations.length := by
    rw [preOf_dsl, List.length_replicate, counts_sum]
    exact hin
  have hlater : ∀ k (hk : k < (pass_resources ++ batch_resources).length),
      j < k → shader_input_getRes (preOf pass_resources batch_resources)
        ((pass_resources ++ batch_resources).get ⟨k, hk⟩) ≠ some i := by
    intro k hk hjk hck
    have hpair := List.pairwise_iff_get.mp hu ⟨j, hj⟩ ⟨k, hk⟩ hjk
    exact getRes_inj pass_resources batch_resources hs _ _
      (List.get_mem _ _ _) (List.get_mem _ _ _) hpair i hi hck
  have hw := assignLocations_getElem_written
    (pass_resources ++ batch_resources)
    (preOf pass_resources batch_resources) 0 j i hj hi hlen hlater
  refine ⟨i, hi, hin, ?_⟩
  rw [show (init pass_resources batch_resources)
      = assignLocations (preOf pass_resources batch_resources) 0
        (pass_resources ++ batch_resources) from rfl, hw]
  simp

/-- C1: after construction, for every position of the sorted input table,
the descriptor-set location array holds, at the position where a resource's
record landed, the counter value assigned to that resource; the counter
starts at 0 and increments once per resource in original descriptor-list
order (pass resources then batch resources), independently of where the
record landed in the sorted table. -/
theorem c1_positional_alignment
    (pass_resources batch_resources : List Resource)
    (hs : SlotsNonneg (pass_resources ++ batch_resources))
    (hu : UniqueTypeSlot (pass_resources ++ batch_resources)) :
    ∀ j (hj : j < (pass_resources ++ batch_resources).length),
      ∃ i, shader_input_getRes (init pass_resources batch_resources)
          ((pass_resources ++ batch_resources).get ⟨j, hj⟩) = some i
        ∧ i < (init pass_resources batch_resources).inputs.length
        ∧ (init pass_resources batch_resources).descriptor_set_locations[i]?
            = some (some j) := by
  intro j hj
  obtain ⟨i, h1, h2, h3⟩ :=
    alignment_main pass_resources batch_resources hs hu j hj
  refine ⟨i, ?_, ?_, h3⟩
  · rw [init_getRes]
    exact h1
  · rw [init_inputs, preOf_inputs_length]
    exact h2

/-- Witness for C1 on the worked scenario of the spec: resource 1 (the
sampler) is found at some table position whose location-map entry is 1. -/
theorem c1_witness :
    ∃ i, shader_input_getRes (init demoList [])
        ((demoList ++ []).get ⟨1, by decide⟩) = some i
      ∧ i < (init demoList []).inputs.length
      ∧ (init demoList []).descriptor_set_locations[i]? = some (some 1) :=
  c1_positional_alignment demoList [] (by decide) (by decide) 1 (by decide)

/-- C7: under the duplicate-free precondition, looking an original resource
up by its bind type and slot returns a table position holding a record whose
binding is the resource's slot (shifted by `image_offset` for images), and
that position is a valid index into the descriptor-set location map. -/
theorem c7_lookup_round_trip
    (pass_resources batch_resources : List Resource)
    (hu : UniqueTypeSlot (pass_resources ++ batch_resources)) :
    ∀ r ∈ pass_resources ++ batch_resources,
      ∃ j, ∃ hj : j < (init pass_resources batch_resources).inputs.length,
        shader_input_get (init pass_resources batch_resources)
            r.bind_type r.slot = some j
        ∧ ((init pass_resources batch_resources).inputs[j]).binding
            = (if r.bind_type = .Image
                then r.slot
                  + (init pass_resources batch_resources).image_offset
                else r.slot)
        ∧ j < (init pass_resources
            batch_resources).descriptor_set_locations.length := by
  intro r hr
  obtain ⟨j, hj⟩ := getRes_found pass_resources batch_resources r hr
  obtain ⟨hjlt, hbind, _⟩ :=
    getRes_some_spec pass_resources batch_resources r j hj
  have hlen : (init pass_resources batch_resources).inputs.length
      = (preOf pass_resources batch_resources).inputs.length := by
    rw [init_inputs]
  have hjlt2 : j < (init pass_resources batch_resources).inputs.length := by
    rw [hlen]; exact hjlt
  refine ⟨j, hjlt2, ?_, ?_, ?_⟩
  · have h2 : shader_input_getRes (init pass_resources batch_resources) r
        = some j := by rw [init_getRes]; exact hj
    exact h2
  · have he : (init pass_resources batch_resources).inputs[j]
        = (preOf pass_resources batch_resources).inputs[j] := by
      congr 1
      rw [init_inputs]
    rw [he]
    rw [hbind, init_image_offset_eq]
    cases hbt : r.bind_type <;> simp [locOf, hbt]
  · rw [init_dsl_length, ← preOf_inputs_length pass_resources batch_resources]
    exact hjlt

/-- Witness for C7 on the worked scenario: the image resource is resolved
to a position whose record carries binding `slot + image_offset`. -/
theorem c7_witness :
    ∃ j, ∃ hj : j < (init demoList []).inputs.length,
      shader_input_get (init demoList [])
          (Resource.mk .Image 0 "img_out").bind_type
          (Resource.mk .Image 0 "img_out").slot = some j
      ∧ ((init demoList []).inputs[j]).binding
          = (if (Resource.mk .Image 0 "img_out").bind_type = .Image
              then (Resource.mk .Image 0 "img_out").slot
                + (init demoList []).image_offset
              else (Resource.mk .Image 0 "img_out").slot)
      ∧ j < (init demoList []).descriptor_set_locations.length :=
  c7_lookup_round_trip demoList [] (by decide)
    (Resource.mk .Image 0 "img_out") (by decide)

/-- C8: during the second pass, the lookup never returns the not-found
signal for any resource of the descriptor list - every resource got a
matching record in the first pass, so the fatal branch is unreachable. -/
theorem c8_lookup_total
    (pass_resources batch_resources : List Resource)
    (hu : UniqueTypeSlot (pass_resources ++ batch_resources)) :
    ∀ r ∈ pass_resources ++ batch_resources,
      shader_input_getRes (init pass_resources batch_resources) r ≠ none := by
  intro r hr
  obtain ⟨j, hj⟩ := getRes_found pass_resources batch_resources r hr
  rw [init_getRes, hj]
  simp

/-- Witness for C8 on the worked scenario: the storage-buffer resource is
found. -/
theorem c8_witness :
    shader_input_getRes (init demoList [])
      (Resource.mk .StorageBuffer 0 "data") ≠ none :=
  c8_lookup_total demoList [] (by decide)
    (Resource.mk .StorageBuffer 0 "data") (by decide)

theorem count_one_of_nodup_mem {α : Type} [BEq α] [LawfulBEq α]
    {l : List α} {a : α} (hn : l.Nodup) (hm : a ∈ l) : l.count a = 1 := by
  induction l with
  | nil => simp at hm
  | cons b l ih =>
      rw [List.count_cons]
      rcases List.mem_cons.mp hm with h | h
      · subst h
        have hbl : a ∉ l := (List.nodup_cons.mp hn).1
        rw [List.count_eq_zero.mpr hbl]
        simp
      · have hnl := (List.nodup_cons.mp hn).2
        have hne : (b == a) = false := by
          have hba : b ≠ a := fun he => (List.nodup_cons.mp hn).1 (he ▸ h)
          simp [hba]
        rw [ih hnl h, hne]
        simp

/-- C10 (implicit): after construction of a duplicate-free shader with `n`
resources, the descriptor-set location map has `n` entries and contains each
counter value `0, ..., n-1` exactly once - the assignment is a bijection
between table positions and original descriptor-list positions, with no
entry left unwritten and none written twice. -/
theorem c10_locations_bijection
    (pass_resources batch_resources : List Resource)
    (hs : SlotsNonneg (pass_resources ++ batch_resources))
    (hu : UniqueTypeSlot (pass_resources ++ batch_resources)) :
    (init pass_resources batch_resources).descriptor_set_locations.length
        = (pass_resources ++ batch_resources).length
      ∧ (∀ v, v < (pass_resources ++ batch_resources).length →
          (init pass_resources
            batch_resources).descriptor_set_locations.count (some v) = 1)
      ∧ none ∉ (init pass_resources batch_resources).descriptor_set_locations := by
  set all := pass_resources ++ batch_resources with hall
  set M := (init pass_resources batch_resources).descriptor_set_locations
    with hMdef
  have hMlen : M.length = all.length :=
    init_dsl_length pass_resources batch_resources
  have htot : ∀ j : Fin all.length, ∃ i : Fin all.length,
      shader_input_getRes (preOf pass_resources batch_resources) (all.get j)
          = some i.val
        ∧ M[i.val]? = some (some j.val) := by
    intro j
    obtain ⟨i, h1, h2, h3⟩ :=
      alignment_main pass_resources batch_resources hs hu j.val j.isLt
    exact ⟨⟨i, h2⟩, h1, h3⟩
  choose f hf using htot
  have hinj : Function.Injective f := by
    intro j1 j2 he
    by_contra hne
    have hp : (all.get j1).bind_type = (all.get j2).bind_type →
        (all.get j1).slot ≠ (all.get j2).slot := by
      rcases lt_or_gt_of_ne hne with hlt | hgt
      · exact List.pairwise_iff_get.mp hu j1 j2 hlt
      · have h2 := List.pairwise_iff_get.mp hu j2 j1 hgt
        intro hbt hslot
        exact h2 hbt.symm hslot.symm
    refine getRes_inj pass_resources batch_resources hs _ _
      (List.get_mem _ _ _) (List.get_mem _ _ _) hp (f j1).val (hf j1).1 ?_
    rw [he]
    exact (hf j2).1
  have hsurj : Function.Surjective f := Finite.injective_iff_surjective.mp hinj
  have hchar : ∀ i : Fin all.length, ∃ j : Fin all.length,
      f j = i ∧ M[i.val]? = some (some j.val) := by
    intro i
    obtain ⟨j, hj⟩ := hsurj i
    refine ⟨j, hj, ?_⟩
    rw [← hj]
    exact (hf j).2
  have hget : ∀ i : Fin M.length, ∃ j : Fin all.length,
      M.get i = some j.val := by
    intro i
    obtain ⟨j, _, hm⟩ := hchar ⟨i.val, by rw [← hMlen]; exact i.isLt⟩
    refine ⟨j, ?_⟩
    have he := List.getElem?_eq_getElem i.isLt
    rw [he] at hm
    have := Option.some.inj hm
    rw [List.get_eq_getElem]
    exact this
  have hnodup : M.Nodup := by
    rw [List.nodup_iff_injective_get]
    intro i1 i2 he2
    obtain ⟨j1, hf1, hm1⟩ := hchar ⟨i1.val, by rw [← hMlen]; exact i1.isLt⟩
    obtain ⟨j2, hf2, hm2⟩ := hchar ⟨i2.val, by rw [← hMlen]; exact i2.isLt⟩
    have e1 : M.get i1 = some j1.val := by
      have he := List.getElem?_eq_getElem i1.isLt
      rw [he] at hm1
      rw [List.get_eq_getElem]
      exact Option.some.inj hm1
    have e2 : M.get i2 = some j2.val := by
      have he := List.getElem?_eq_getElem i2.isLt
      rw [he] at hm2
      rw [List.get_eq_getElem]
      exact Option.some.inj hm2
    have hj12 : j1 = j2 := by
      apply Fin.ext
      have := e1.symm.trans (he2.trans e2)
      exact Option.some.inj this
    apply Fin.ext
    have h1 : (⟨i1.val, by rw [← hMlen]; exact i1.isLt⟩ : Fin all.length)
        = (⟨i2.val, by rw [← hMlen]; exact i2.isLt⟩ : Fin all.length) := by
      rw [← hf1, ← hf2, hj12]
    simpa using congrArg Fin.val h1
  refine ⟨hMlen, ?_, ?_⟩
  · intro v hv
    have hmem : (some v : Option Nat) ∈ M :=
      List.getElem?_mem (hf ⟨v, hv⟩).2
    exact count_one_of_nodup_mem hnodup hmem
  · intro hmem
    obtain ⟨i, hi⟩ := List.mem_iff_get.mp hmem
    obtain ⟨j, hj⟩ := hget i
    rw [hi] at hj
    exact Option.noConfusion hj

/-- Witness for C10 on the worked scenario: the map has four entries,
counts counter value 2 exactly once, and has no unwritten cell. -/
theorem c10_witness :
    (init demoList []).descriptor_set_locations.length
        = (demoList ++ []).length
      ∧ (∀ v, v < (demoList ++ []).length →
          (init demoList []).descriptor_set_locations.count (some v) = 1)
      ∧ none ∉ (init demoList []).descriptor_set_locations :=
  c10_locations_bijection demoList [] (by decide) (by decide)

/-- C2: the computed `image_offset` is 1 plus the maximum slot over the
Sampler resources (image slots are never consulted); with no samplers it is
0, construction still completes with a full table, and image records then
use their raw slot as location. -/
theorem c2_image_offset (pass_resources batch_resources : List Resource)
    (hs : SlotsNonneg (pass_resources ++ batch_resources)) :
    ((∃ r ∈ pass_resources ++ batch_resources, isSampler r = true) →
      (∃ r ∈ pass_resources ++ batch_resources, isSampler r = true
        ∧ (init pass_resources batch_resources).image_offset = 1 + r.slot)
      ∧ ∀ r ∈ pass_resources ++ batch_resources, isSampler r = true →
          r.slot + 1 ≤ (init pass_resources batch_resources).image_offset)
    ∧ ((∀ r ∈ pass_resources ++ batch_resources, isSampler r = false) →
        (init pass_resources batch_resources).image_offset = 0
        ∧ (init pass_resources batch_resources).inputs.length
            = (pass_resources ++ batch_resources).length
        ∧ ∀ r ∈ pass_resources ++ batch_resources, r.bind_type = .Image →
            locOf (init pass_resources batch_resources).image_offset r
              = r.slot) := by
  rw [init_image_offset_eq]
  constructor
  · intro ⟨r0, hr0, hs0⟩
    constructor
    · rcases classify_foldl_raw_attained (pass_resources ++ batch_resources)
        ⟨0, 0, 0, -1⟩ with h | ⟨r, hr, hsam, he⟩
      · exfalso
        have h1 := classify_foldl_raw_ge (pass_resources ++ batch_resources)
          ⟨0, 0, 0, -1⟩ r0 hr0 hs0
        have h2 : (0 : Int) ≤ r0.slot := hs r0 hr0
        rw [show ClassifyState.image_offset_raw ⟨0, 0, 0, -1⟩ = -1 from rfl]
          at h
        omega
      · refine ⟨r, hr, hsam, ?_⟩
        unfold image_offset_of classify
        rw [he]
        omega
    · intro r hr hsam
      have h1 := classify_foldl_raw_ge (pass_resources ++ batch_resources)
        ⟨0, 0, 0, -1⟩ r hr hsam
      unfold image_offset_of classify
      omega
  · intro hnone
    have h := classify_foldl_raw_no_sampler (pass_resources ++ batch_resources)
      hnone ⟨0, 0, 0, -1⟩
    have hio : image_offset_of (pass_resources ++ batch_resources) = 0 := by
      unfold image_offset_of classify
      rw [show ClassifyState.image_offset_raw ⟨0, 0, 0, -1⟩ = -1 from rfl]
        at h
      omega
    refine ⟨hio, ?_, ?_⟩
    · rw [init_inputs, preOf_inputs_length]
    · intro r hr hbt
      rw [hio]
      simp [locOf, hbt]

/-- Witness for C2 on the worked scenario (one sampler on slot 0, so
`image_offset = 1`). -/
theorem c2_witness :
    ((∃ r ∈ demoList ++ [], isSampler r = true) →
      (∃ r ∈ demoList ++ [], isSampler r = true
        ∧ (init demoList []).image_offset = 1 + r.slot)
      ∧ ∀ r ∈ demoList ++ [], isSampler r = true →
          r.slot + 1 ≤ (init demoList []).image_offset)
    ∧ ((∀ r ∈ demoList ++ [], isSampler r = false) →
        (init demoList []).image_offset = 0
        ∧ (init demoList []).inputs.length = (demoList ++ []).length
        ∧ ∀ r ∈ demoList ++ [], r.bind_type = .Image →
            locOf (init demoList []).image_offset r = r.slot) :=
  c2_image_offset demoList [] (by decide)

theorem specGroupOrder_mem (l : List Resource) (r : Resource)
    (h : r ∈ specGroupOrder l) : r ∈ l := by
  unfold specGroupOrder at h
  rcases List.mem_append.mp h with h2 | h2
  · rcases List.mem_append.mp h2 with h3 | h3
    · exact (List.mem_filter.mp h3).1
    · exact (List.mem_filter.mp h3).1
  · exact (List.mem_filter.mp h2).1

theorem populateInOrder_loc_eq_binding (io : Int) :
    ∀ (l : List Resource) (off : Nat) (rec : ShaderInput),
      rec ∈ populateInOrder io l off → rec.location = rec.binding := by
  intro l
  induction l with
  | nil => intro off rec h; simp [populateInOrder] at h
  | cons r rs ih =>
      intro off rec h
      rcases List.mem_cons.mp h with h2 | h2
      · subst h2; rfl
      · exact ih _ rec h2

/-- C3: with non-negative slots, the sampler and image location namespaces
never collide: sampler records keep their raw slot as location, image
records get slot + image_offset, the offset exceeds every sampler slot, and
no image record's location equals any sampler record's location; the sorted
table is a permutation of exactly these records. -/
theorem c3_sampler_image_no_collision
    (pass_resources batch_resources : List Resource)
    (hs : SlotsNonneg (pass_resources ++ batch_resources)) :
    (∀ k (hk : k <
        (specGroupOrder (pass_resources ++ batch_resources)).length),
      ((specGroupOrder (pass_resources ++ batch_resources)).get
          ⟨k, hk⟩).bind_type = .Sampler →
        ((populateInOrder (init pass_resources batch_resources).image_offset
            (specGroupOrder (pass_resources ++ batch_resources)) 0).get
          ⟨k, by rw [populateInOrder_length]; exact hk⟩).location
          = ((specGroupOrder (pass_resources ++ batch_resources)).get
              ⟨k, hk⟩).slot)
    ∧ (∀ k (hk : k <
        (specGroupOrder (pass_resources ++ batch_resources)).length),
      ((specGroupOrder (pass_resources ++ batch_resources)).get
          ⟨k, hk⟩).bind_type = .Image →
        ((populateInOrder (init pass_resources batch_resources).image_offset
            (specGroupOrder (pass_resources ++ batch_resources)) 0).get
          ⟨k, by rw [populateInOrder_length]; exact hk⟩).location
          = ((specGroupOrder (pass_resources ++ batch_resources)).get
              ⟨k, hk⟩).slot
            + (init pass_resources batch_resources).image_offset)
    ∧ (∀ r ∈ pass_resources ++ batch_resources, r.bind_type = .Sampler →
        r.slot < (init pass_resources batch_resources).image_offset)
    ∧ (∀ ks ki
        (hks : ks < (specGroupOrder (pass_resources ++ batch_resources)).length)
        (hki : ki < (specGroupOrder (pass_resources ++ batch_resources)).length),
      ((specGroupOrder (pass_resources ++ batch_resources)).get
          ⟨ks, hks⟩).bind_type = .Sampler →
      ((specGroupOrder (pass_resources ++ batch_resources)).get
          ⟨ki, hki⟩).bind_type = .Image →
        ((populateInOrder (init pass_resources batch_resources).image_offset
            (specGroupOrder (pass_resources ++ batch_resources)) 0).get
          ⟨ki, by rw [populateInOrder_length]; exact hki⟩).location
          ≠ ((populateInOrder (init pass_resources batch_resources).image_offset
              (specGroupOrder (pass_resources ++ batch_resources)) 0).get
            ⟨ks, by rw [populateInOrder_length]; exact hks⟩).location)
    ∧ (init pass_resources batch_resources).inputs.Perm
        (populateInOrder (init pass_resources batch_resources).image_offset
          (specGroupOrder (pass_resources ++ batch_resources)) 0) := by
  refine ⟨?_, ?_, ?_, ?_, ?_⟩
  · intro k hk hbt
    rw [List.get_eq_getElem] at hbt
    rw [populateInOrder_get _ _ _ k hk]
    simp [mkInput, locOf, hbt]
  · intro k hk hbt
    rw [List.get_eq_getElem] at hbt
    rw [populateInOrder_get _ _ _ k hk]
    simp [mkInput, locOf, hbt]
  · intro r hr hbt
    rw [init_image_offset_eq]
    exact sampler_slot_lt_io _ r hr hbt
  · intro ks ki hks hki hbs hbi
    rw [populateInOrder_get, populateInOrder_get]
    simp only [mkInput, locOf, hbs, hbi]
    have h1 : ((specGroupOrder (pass_resources ++ batch_resources)).get
        ⟨ks, hks⟩).slot
        < (init pass_resources batch_resources).image_offset := by
      rw [init_image_offset_eq]
      exact sampler_slot_lt_io _ _
        (specGroupOrder_mem _ _ (List.get_mem _ _ _)) hbs
    have h2 : (0 : Int) ≤ ((specGroupOrder
        (pass_resources ++ batch_resources)).get ⟨ki, hki⟩).slot :=
      hs _ (specGroupOrder_mem _ _ (List.get_mem _ _ _))
    omega
  · rw [init_inputs, init_image_offset_eq]
    have hperm := preOf_inputs_perm pass_resources batch_resources
    rw [populated_eq_inOrder] at hperm
    exact hperm

/-- Witness for C3 on the worked scenario. -/
theorem c3_witness :
    (∀ k (hk : k < (specGroupOrder (demoList ++ [])).length),
      ((specGroupOrder (demoList ++ [])).get ⟨k, hk⟩).bind_type = .Sampler →
        ((populateInOrder (init demoList []).image_offset
            (specGroupOrder (demoList ++ [])) 0).get
          ⟨k, by rw [populateInOrder_length]; exact hk⟩).location
          = ((specGroupOrder (demoList ++ [])).get ⟨k, hk⟩).slot)
    ∧ (∀ k (hk : k < (specGroupOrder (demoList ++ [])).length),
      ((specGroupOrder (demoList ++ [])).get ⟨k, hk⟩).bind_type = .Image →
        ((populateInOrder (init demoList []).image_offset
            (specGroupOrder (demoList ++ [])) 0).get
          ⟨k, by rw [populateInOrder_length]; exact hk⟩).location
          = ((specGroupOrder (demoList ++ [])).get ⟨k, hk⟩).slot
            + (init demoList []).image_offset)
    ∧ (∀ r ∈ demoList ++ [], r.bind_type = .Sampler →
        r.slot < (init demoList []).image_offset)
    ∧ (∀ ks ki (hks : ks < (specGroupOrder (demoList ++ [])).length)
        (hki : ki < (specGroupOrder (demoList ++ [])).length),
      ((specGroupOrder (demoList ++ [])).get ⟨ks, hks⟩).bind_type
          = .Sampler →
      ((specGroupOrder (demoList ++ [])).get ⟨ki, hki⟩).bind_type = .Image →
        ((populateInOrder (init demoList []).image_offset
            (specGroupOrder (demoList ++ [])) 0).get
          ⟨ki, by rw [populateInOrder_length]; exact hki⟩).location
          ≠ ((populateInOrder (init demoList []).image_offset
              (specGroupOrder (demoList ++ [])) 0).get
            ⟨ks, by rw [populateInOrder_length]; exact hks⟩).location)
    ∧ (init demoList []).inputs.Perm
        (populateInOrder (init demoList []).image_offset
          (specGroupOrder (demoList ++ [])) 0) :=
  c3_sampler_image_no_collision demoList [] (by decide)

/-- C4 counterexample: on a descriptor list with one sampler and one image
(both slot 0, so `image_offset = 1`), the image record - the record with
binding 1 = slot + image_offset, name "img" - has location EQUAL to its
binding (both 1), contradicting the claim that for image records location
and binding are not equal.  Line 72 of the source sets
`input->location = input->binding = res.slot + image_offset_`. -/
theorem c4_counterexample :
    ((init [⟨.Sampler, 0, "tex"⟩, ⟨.Image, 0, "img"⟩] []).inputs.map
        fun rec => (rec.name, rec.location, rec.binding))
      = [("img", 1, 1), ("tex", 0, 0)] := by decide

/-- C4 (amended): in every record produced by construction, location and
binding are equal - image records included; for images both fields hold
slot + image_offset, so images are the exception to location = slot, not
to location = binding. -/
theorem c4_location_eq_binding
    (pass_resources batch_resources : List Resource) :
    ∀ rec ∈ (init pass_resources batch_resources).inputs,
      rec.location = rec.binding := by
  intro rec hrec
  rw [init_inputs] at hrec
  have hmem : rec ∈ populatedOf pass_resources batch_resources :=
    (preOf_inputs_perm pass_resources batch_resources).mem_iff.mp hrec
  rw [populated_eq_inOrder] at hmem
  exact populateInOrder_loc_eq_binding _ _ _ rec hmem

/-- Witness for the amended C4: the image record of the sampler+image
scenario has location equal to binding. -/
theorem c4_witness :
    ((init [⟨.Sampler, 0, "tex"⟩, ⟨.Image, 0, "img"⟩] []).inputs.get
        ⟨0, by decide⟩).location
      = ((init [⟨.Sampler, 0, "tex"⟩, ⟨.Image, 0, "img"⟩] []).inputs.get
        ⟨0, by decide⟩).binding :=
  c4_location_eq_binding [⟨.Sampler, 0, "tex"⟩, ⟨.Image, 0, "img"⟩] [] _
    (by decide)

/-- C5: before sorting, the population pass emits records in fixed group
order over the combined descriptor list (pass-scoped then batch-scoped):
first all uniform-buffer records in descriptor-list order, then all sampler
and image records interleaved in descriptor-list order, then all
storage-buffer records in descriptor-list order; the sort then runs on
exactly this list. -/
theorem c5_fixed_group_order (pass_resources batch_resources : List Resource) :
    populatedOf pass_resources batch_resources
        = populateInOrder (image_offset_of (pass_resources ++ batch_resources))
            (specGroupOrder (pass_resources ++ batch_resources)) 0
      ∧ (init pass_resources batch_resources).inputs
          = sort_inputs (classify (pass_resources ++ batch_resources)).ubo_len
              (classify (pass_resources ++ batch_resources)).uniform_len
              (populatedOf pass_resources batch_resources) :=
  ⟨populated_eq_inOrder pass_resources batch_resources,
    by rw [init_inputs]; rfl⟩

/-- C6: construction creates exactly one record per resource descriptor -
the allocated table size (the sum of the UBO, sampler-plus-image and SSBO
counters) equals the descriptor-list length and the populated table has
that many records - and the name-buffer bytes consumed equal the sum of
all resource name lengths. -/
theorem c6_sizes (pass_resources batch_resources : List Resource) :
    (classify (pass_resources ++ batch_resources)).ubo_len
        + (classify (pass_resources ++ batch_resources)).uniform_len
        + (classify (pass_resources ++ batch_resources)).ssbo_len
        = (pass_resources ++ batch_resources).length
      ∧ (init pass_resources batch_resources).inputs.length
          = (pass_resources ++ batch_resources).length
      ∧ (init pass_resources batch_resources).name_buffer_used
          = nameBytes (pass_resources ++ batch_resources) := by
  refine ⟨counts_sum _, ?_, ?_⟩
  · rw [init_inputs, preOf_inputs_length]
  · rw [show (init pass_resources batch_resources).name_buffer_used
        = (preOf pass_resources batch_resources).name_buffer_used from
        assignLocations_name_buffer_used _ _ _]
    have h0 : (preOf pass_resources batch_resources).name_buffer_used
        = (populateLoop selSsbo (pass_resources ++ batch_resources)
            ((populateLoop
              (selTex (image_offset_of (pass_resources ++ batch_resources)))
              (pass_resources ++ batch_resources)
              ((populateLoop selUbo
                (pass_resources ++ batch_resources) 0).2)).2)).2 := rfl
    rw [h0, populateLoop_snd, filter_selSsbo, populateLoop_snd, filter_selTex,
      populateLoop_snd, filter_selUbo]
    have hpart := nameBytes_three_partition (pass_resources ++ batch_resources)
    simp only [nameBytes] at hpart ⊢
    omega

/-! Stability of the name sort: records with equal names keep their
population order, so ties are broken deterministically by original
position. -/

theorem charsLe_refl : ∀ l : List Char, charsLe l l = true := by
  intro l
  induction l with
  | nil => rfl
  | cons a as ih => simp [charsLe, ih]

theorem nameLe_of_eq {a b : ShaderInput} (h : a.name = b.name) : nameLe a b := by
  unfold nameLe
  rw [h]
  exact charsLe_refl _

theorem name_ne_of_not_nameLe {a b : ShaderInput} (h : ¬ nameLe a b) :
    a.name ≠ b.name :=
  fun he => h (nameLe_of_eq he)

theorem filter_orderedInsert_eqname (a : ShaderInput) :
    ∀ l : List ShaderInput,
      (List.orderedInsert nameLe a l).filter (fun x => x.name == a.name)
        = a :: l.filter (fun x => x.name == a.name) := by
  intro l
  induction l with
  | nil => simp [List.orderedInsert]
  | cons b l ih =>
      by_cases h : nameLe a b
      · rw [List.orderedInsert, if_pos h]
        simp [List.filter_cons]
      · rw [List.orderedInsert, if_neg h]
        have hb : (b.name == a.name) = false :=
          beq_eq_false_iff_ne.mpr (Ne.symm (name_ne_of_not_nameLe h))
        simp only [List.filter_cons, hb, ih]
        simp

theorem filter_orderedInsert_nename (a : ShaderInput) (s : String)
    (hne : a.name ≠ s) :
    ∀ l : List ShaderInput,
      (List.orderedInsert nameLe a l).filter (fun x => x.name == s)
        = l.filter (fun x => x.name == s) := by
  intro l
  induction l with
  | nil => simp [List.orderedInsert, hne]
  | cons b l ih =>
      by_cases h : nameLe a b
      · rw [List.orderedInsert, if_pos h]
        have ha : (a.name == s) = false := beq_eq_false_iff_ne.mpr hne
        simp [List.filter_cons, ha]
      · rw [List.orderedInsert, if_neg h]
        simp only [List.filter_cons, ih]

theorem insertionSort_filter_name (s : String) :
    ∀ l : List ShaderInput,
      (List.insertionSort nameLe l).filter (fun x => x.name == s)
        = l.filter (fun x => x.name == s) := by
  intro l
  induction l with
  | nil => rfl
  | cons a l ih =>
      rw [List.insertionSort]
      by_cases h : a.name = s
      · subst h
        rw [filter_orderedInsert_eqname, ih]
        simp [List.filter_cons]
      · rw [filter_orderedInsert_nename a s h, ih]
        have ha : (a.name == s) = false := beq_eq_false_iff_ne.mpr h
        simp [List.filter_cons, ha]

/-- C9: construction is deterministic - equal descriptor lists give
structurally identical interfaces - and the sort breaks ties between
records with equal names deterministically by original position: for every
name, the equal-name records of the sorted table appear in exactly their
pre-sort population order. -/
theorem c9_deterministic (p1 b1 p2 b2 : List Resource)
    (h1 : p1 = p2) (h2 : b1 = b2) :
    init p1 b1 = init p2 b2
      ∧ ∀ s : String,
          ((init p1 b1).inputs.filter fun rec => rec.name == s)
            = (populatedOf p1 b1).filter fun rec => rec.name == s := by
  subst h1
  subst h2
  refine ⟨rfl, ?_⟩
  intro s
  rw [init_inputs, preOf_inputs_decomp, populated_decomp]
  unfold sortedUboOf sortedTexOf sortedSsboOf
  simp only [List.filter_append]
  rw [insertionSort_filter_name, insertionSort_filter_name,
    insertionSort_filter_name]

/-- Witness for C9 on the worked scenario. -/
theorem c9_witness :
    init demoList [] = init demoList []
      ∧ ∀ s : String,
          ((init demoList []).inputs.filter fun rec => rec.name == s)
            = (populatedOf demoList []).filter fun rec => rec.name == s :=
  c9_deterministic demoList [] demoList [] rfl rfl

end VK

-- Sanity checks on the worked scenario of the spec.
example :
    (VK.init [⟨.UniformBuffer, 0, "Globals"⟩, ⟨.Sampler, 0, "tex"⟩,
      ⟨.Image, 0, "img_out"⟩, ⟨.StorageBuffer, 0, "data"⟩] []).image_offset
      = 1 := by decide

example :
    (VK.init [⟨.UniformBuffer, 0, "Globals"⟩, ⟨.Sampler, 0, "tex"⟩,
      ⟨.Image, 0, "img_out"⟩, ⟨.StorageBuffer, 0, "data"⟩]
      []).descriptor_set_locations
      = [some 0, some 2, some 1, some 3] := by decide
